import Mathlib

/-!
Shallow embedding of the tasklist application (src/src/App.tsx).

The application is a single-page task checklist: a per-date store maps a
date-key string to an ordered list of tasks, and the UI offers toggle,
delete, add, and rename operations on the list of the currently selected
date, plus a yearly calendar whose day cells are coloured by a three-state
status classifier.  The definitions below translate the relevant functions
of `App.tsx` into Lean; machine integers become `Nat`, JS arrays become
`List`, the JS record `TasksByDate` becomes a function from keys to
`Option (List Task)`, and the `Date.now()` clock becomes an explicit
argument.
-/

namespace Tasklist

/-- The `Task` interface of App.tsx: `{ id: number; text: string; completed: boolean }`. -/
structure Task where
  id : Nat
  text : String
  completed : Bool
deriving DecidableEq, Repr

/-- Model of the JS `String.prototype.trim()` used throughout App.tsx: removes
leading and trailing whitespace characters.  Defined structurally on the
character list so that it evaluates inside the kernel. -/
def trim (s : String) : String :=
  String.mk (((s.data.dropWhile Char.isWhitespace).reverse.dropWhile Char.isWhitespace).reverse)

/-- The three-valued day status returned by `dayStatus` in App.tsx. -/
inductive Status where
  | none
  | incomplete
  | complete
deriving DecidableEq, Repr

/-- Embedding of `dayStatus` (App.tsx lines 114-118): given the store lookup
result for a date-key (`tasksByDate[fmt(d)]`, which is `undefined` when absent),
return `none` when the list is absent or empty, `complete` when every task is
completed, and `incomplete` otherwise. -/
def dayStatus (list : Option (List Task)) : Status :=
  match list with
  | Option.none => Status.none
  | Option.some l =>
      if l.length = 0 then Status.none
      else if l.all (fun t => t.completed) then Status.complete
      else Status.incomplete

/-- Embedding of the updater lambda of `toggleTask` (App.tsx lines 88-90):
`prev.map((t) => (t.id === id ? { ...t, completed: !t.completed } : t))`. -/
def toggleTask (id : Nat) (prev : List Task) : List Task :=
  prev.map (fun t => if t.id = id then { t with completed := !t.completed } else t)

/-- Embedding of the updater lambda of `deleteTask` (App.tsx lines 92-94):
`prev.filter((t) => t.id !== id)`. -/
def deleteTask (id : Nat) (prev : List Task) : List Task :=
  prev.filter (fun t => t.id != id)

/-- Embedding of the updater lambda of `handleNewTask` (App.tsx lines 104-109):
`const value = newTask.trim(); if (!value) return;`
`setCurrentTasks((prev) => [...prev, { id: Date.now(), text: value, completed: false }])`.
The `Date.now()` clock reading is passed in as `now`. -/
def handleNewTask (now : Nat) (newTask : String) (prev : List Task) : List Task :=
  let value := trim newTask
  if value = "" then prev
  else prev ++ [{ id := now, text := value, completed := false }]

/-- The day-view editing state of the app root: `editingId`, `editingValue`
and the current task list (App.tsx lines 59-64). -/
structure DayState where
  tasks : List Task
  editingId : Option Nat
  editingValue : String
deriving DecidableEq, Repr

/-- Embedding of `saveEditing` (App.tsx lines 97-102):
`if (editingId === null) return; const value = editingValue.trim();`
`setCurrentTasks((prev) => prev.map((t) => (t.id === editingId ? { ...t, text: value || t.text } : t)));`
`setEditingId(null); setEditingValue("")`.
The JS expression `value || t.text` yields `t.text` exactly when `value` is the
empty string. -/
def saveEditing (s : DayState) : DayState :=
  match s.editingId with
  | Option.none => s
  | Option.some eid =>
      let value := trim s.editingValue
      { tasks := s.tasks.map (fun t =>
          if t.id = eid then { t with text := if value = "" then t.text else value } else t),
        editingId := Option.none,
        editingValue := "" }

/-- Embedding of the Escape branch of the edit field key handler
(App.tsx line 265): `else if (e.key==='Escape'){ e.preventDefault(); onEditChange(""); }`,
where `onEditChange` is `setEditingValue`.  Only the buffer is cleared. -/
def escapeEdit (s : DayState) : DayState :=
  { s with editingValue := "" }

/-- Embedding of `setCurrentTasks` (App.tsx lines 83-86):
`setTasksByDate((prev) => ({ ...prev, [key]: updater(prev[key] || []) }))`.
The JS record is modelled as a function from date-keys to `Option (List Task)`;
the spread overrides exactly the entry at `key`. -/
def setCurrentTasks (key : String) (updater : List Task → List Task)
    (prev : String → Option (List Task)) : String → Option (List Task) :=
  fun k => if k = key then Option.some (updater ((prev key).getD [])) else prev k

/-- Gregorian leap-year rule, as implemented by the JS `Date` arithmetic that
`new Date(year, month + 1, 0).getDate()` relies on. -/
def isLeapYear (y : Nat) : Bool :=
  y % 4 = 0 && (y % 100 != 0 || y % 400 = 0)

/-- Embedding of `new Date(year, month + 1, 0).getDate()` (App.tsx line 188):
the number of days in month `m` (JS 0-based, January = 0) of year `y`. -/
def daysInMonth (y : Nat) (m : Nat) : Nat :=
  if m = 1 then (if isLeapYear y then 29 else 28)
  else if m = 3 || m = 5 || m = 8 || m = 10 then 30
  else 31

/-- Embedding of `new Date(year, month, 1).getDay()` for month `m` (JS 0-based)
of year `y`: the weekday of the first of the month with Sunday = 0, computed by
Sakamoto's method over the proleptic Gregorian calendar. -/
def firstGetDay (y : Nat) (m : Nat) : Nat :=
  let t : List Nat := [0, 3, 2, 5, 0, 3, 5, 1, 4, 6, 2, 4]
  let ya := if m < 2 then y - 1 else y
  (ya + ya / 4 - ya / 100 + ya / 400 + t.getD m 0 + 1) % 7

/-- Embedding of `const startDay = (first.getDay() + 6) % 7` (App.tsx line 187):
the Monday-first weekday index (Monday = 0 ... Sunday = 6) of the first of the
month. -/
def startDay (y : Nat) (m : Nat) : Nat :=
  (firstGetDay y m + 6) % 7

/-- Embedding of the cell construction of `Month` (App.tsx lines 189-192):
`for (let i = 0; i < startDay; i++) cells.push(null);`
`for (let d = 1; d <= daysInMonth; d++) cells.push(new Date(year, month, d));`
`while (cells.length % 7 !== 0) cells.push(null);`
A day cell is modelled by its day number. -/
def monthCells (y : Nat) (m : Nat) : List (Option Nat) :=
  let cells := List.replicate (startDay y m) Option.none
      ++ (List.range (daysInMonth y m)).map (fun d => Option.some (d + 1))
  cells ++ List.replicate ((7 - cells.length % 7) % 7) Option.none

/-! ## Helper lemmas -/

/-- Splitting a no-duplicate id list around a distinguished task: no task on
either side shares its id. -/
lemma ids_split {l₁ l₂ : List Task} {t : Task}
    (h : ((l₁ ++ t :: l₂).map Task.id).Nodup) :
    (∀ u ∈ l₁, u.id ≠ t.id) ∧ (∀ u ∈ l₂, u.id ≠ t.id) := by
  rw [List.map_append, List.map_cons, List.nodup_append] at h
  obtain ⟨h₁, h₂, hdisj⟩ := h
  rw [List.nodup_cons] at h₂
  constructor
  · intro u hu heq
    exact hdisj (heq ▸ List.mem_map_of_mem Task.id hu) (List.mem_cons_self _ _)
  · intro u hu heq
    exact h₂.1 (heq ▸ List.mem_map_of_mem Task.id hu)

/-- Mapping an id-guarded update over a list without the id is the identity. -/
lemma map_if_id_eq_self (id : Nat) (g : Task → Task) (l : List Task)
    (h : ∀ u ∈ l, u.id ≠ id) :
    l.map (fun t => if t.id = id then g t else t) = l := by
  induction l with
  | nil => rfl
  | cons a t ih =>
      rw [List.map_cons, if_neg (h a (List.mem_cons_self a t)),
        ih (fun u hu => h u (List.mem_cons_of_mem a hu))]

/-- An id-guarded update that never changes the id field leaves the list of
ids unchanged. -/
lemma map_ids_if (id : Nat) (g : Task → Task) (hg : ∀ t, (g t).id = t.id)
    (l : List Task) :
    (l.map (fun t => if t.id = id then g t else t)).map Task.id = l.map Task.id := by
  induction l with
  | nil => rfl
  | cons a t ih =>
      simp only [List.map_cons, ih]
      congr 1
      by_cases ha : a.id = id
      · rw [if_pos ha, hg]
      · rw [if_neg ha]

/-- Toggling an id that occurs nowhere in the list is a no-op. -/
lemma toggleTask_of_forall_ne (id : Nat) (l : List Task)
    (h : ∀ u ∈ l, u.id ≠ id) : toggleTask id l = l :=
  map_if_id_eq_self id (fun t => { t with completed := !t.completed }) l h

/-- Deleting an id that occurs nowhere in the list is a no-op. -/
lemma deleteTask_of_forall_ne (id : Nat) (l : List Task)
    (h : ∀ u ∈ l, u.id ≠ id) : deleteTask id l = l := by
  induction l with
  | nil => rfl
  | cons a t ih =>
      have ha : (a.id != id) = true := by
        simpa using h a (List.mem_cons_self a t)
      simp only [deleteTask, List.filter_cons, ha, if_true]
      have := ih (fun u hu => h u (List.mem_cons_of_mem a hu))
      simp only [deleteTask] at this
      rw [this]

/-- Updating every matching task with its own text is the identity map. -/
lemma map_keep_text (eid : Nat) (l : List Task) :
    l.map (fun t => if t.id = eid then { t with text := t.text } else t) = l := by
  have hself : ∀ t : Task, { t with text := t.text } = t := fun t => rfl
  simp [hself]

/-- Double toggle is the identity on any list. -/
lemma toggleTask_toggleTask (id : Nat) (l : List Task) :
    toggleTask id (toggleTask id l) = l := by
  induction l with
  | nil => rfl
  | cons a t ih =>
      cases a with
      | mk i s c =>
          by_cases h : i = id
          · simpa [toggleTask, h] using ih
          · simpa [toggleTask, h] using ih

/-! ## Claim theorems -/

/-- C1: the status classifier returns `none` exactly when the list is absent
or empty; on a non-empty list it returns `complete` exactly when every task is
completed and `incomplete` otherwise, as a pure function of the list. -/
theorem dayStatus_correct (list : Option (List Task)) :
    (dayStatus list = Status.none ↔ list = Option.none ∨ list = Option.some []) ∧
    (∀ l, list = Option.some l → l ≠ [] →
      (dayStatus list = Status.complete ↔ ∀ t ∈ l, t.completed = true) ∧
      (dayStatus list = Status.incomplete ↔ ¬ ∀ t ∈ l, t.completed = true)) := by
  cases list with
  | none =>
      refine ⟨by simp [dayStatus], ?_⟩
      intro l hl
      exact absurd hl (by simp)
  | some l =>
      cases l with
      | nil =>
          refine ⟨by simp [dayStatus], ?_⟩
          intro l hl hne
          injection hl with h
          exact absurd h.symm hne
      | cons a t =>
          by_cases hall : (a :: t).all (fun u => u.completed) = true
          · have hd : dayStatus (Option.some (a :: t)) = Status.complete := by
              simp [dayStatus, hall]
            rw [List.all_eq_true] at hall
            refine ⟨by simp [hd], ?_⟩
            intro l hl hne
            injection hl with h
            subst h
            exact ⟨iff_of_true hd hall, iff_of_false (by simp [hd]) (fun hc => hc hall)⟩
          · have hd : dayStatus (Option.some (a :: t)) = Status.incomplete := by
              simp only [dayStatus, List.length_cons]
              rw [if_neg (by simp), if_neg hall]
            rw [List.all_eq_true] at hall
            refine ⟨by simp [hd], ?_⟩
            intro l hl hne
            injection hl with h
            subst h
            exact ⟨iff_of_false (by simp [hd]) hall, iff_of_true hd hall⟩

/-- Witness for C1 at a concrete one-element, fully completed list. -/
theorem dayStatus_correct_witness :
    dayStatus (Option.some [Task.mk 1 "x" true]) = Status.complete :=
  (((dayStatus_correct (Option.some [Task.mk 1 "x" true])).2
      [Task.mk 1 "x" true] rfl (by decide)).1).mpr (by decide)

/-- C2: adding a task whose trimmed text is empty leaves the current list
unchanged; otherwise exactly one task with the trimmed text and
`completed = false` is appended to the end. -/
theorem handleNewTask_correct (now : Nat) (text : String) (l : List Task) :
    (trim text = "" → handleNewTask now text l = l) ∧
    (trim text ≠ "" →
      handleNewTask now text l =
        l ++ [{ id := now, text := trim text, completed := false }]) := by
  constructor
  · intro h
    simp [handleNewTask, h]
  · intro h
    simp [handleNewTask, h]

/-- Witness for C2: blank text is ignored, non-blank text is appended trimmed. -/
theorem handleNewTask_correct_witness :
    (trim "   " = "" ∧ handleNewTask 7 "   " [] = []) ∧
    (trim " buy milk " ≠ "" ∧
      handleNewTask 7 " buy milk " [] =
        [] ++ [{ id := 7, text := trim " buy milk ", completed := false }]) :=
  ⟨⟨by decide, (handleNewTask_correct 7 "   " []).1 (by decide)⟩,
   ⟨by decide, (handleNewTask_correct 7 " buy milk " []).2 (by decide)⟩⟩

/-- C6: the store-update helper rewrites only the selected date-key; every
other key's binding is unchanged, whatever mutation is applied. -/
theorem setCurrentTasks_frame (key : String) (updater : List Task → List Task)
    (store : String → Option (List Task)) (k : String) (h : k ≠ key) :
    setCurrentTasks key updater store k = store k := by
  simp [setCurrentTasks, h]

/-- Witness for C6 at two concrete distinct date-keys. -/
theorem setCurrentTasks_frame_witness :
    ("2024-03-16" ≠ "2024-03-15") ∧
    setCurrentTasks "2024-03-15" (toggleTask 1) (fun _ => Option.none)
      "2024-03-16" = Option.none :=
  ⟨by decide,
   setCurrentTasks_frame "2024-03-15" (toggleTask 1) (fun _ => Option.none)
     "2024-03-16" (by decide)⟩

/-- C10: toggling an id present in the list twice in succession restores the
original list. -/
theorem toggleTask_involution (id : Nat) (l : List Task)
    (_h : ∃ t ∈ l, t.id = id) :
    toggleTask id (toggleTask id l) = l :=
  toggleTask_toggleTask id l

/-- C3: toggling an id present in a duplicate-free list flips exactly the
matching task and leaves every other task, the length, and the order
unchanged; toggling an absent id is a no-op. -/
theorem toggleTask_correct (id : Nat) (l : List Task) :
    (toggleTask id l).length = l.length ∧
    ((∀ u ∈ l, u.id ≠ id) → toggleTask id l = l) ∧
    (∀ l₁ t l₂, (l.map Task.id).Nodup → l = l₁ ++ t :: l₂ → t.id = id →
      toggleTask id l = l₁ ++ { t with completed := !t.completed } :: l₂) := by
  refine ⟨by simp [toggleTask], toggleTask_of_forall_ne id l, ?_⟩
  intro l₁ t l₂ hnd hl ht
  subst hl
  obtain ⟨h₁, h₂⟩ := ids_split hnd
  unfold toggleTask
  rw [List.map_append, List.map_cons]
  congr 1
  · exact toggleTask_of_forall_ne id l₁ (fun u hu hne => h₁ u hu (hne.trans ht.symm))
  · congr 1
    · rw [if_pos ht]
    · exact toggleTask_of_forall_ne id l₂ (fun u hu hne => h₂ u hu (hne.trans ht.symm))

/-- Witness for C3 at a concrete two-element list with distinct ids. -/
theorem toggleTask_correct_witness :
    (([Task.mk 1 "a" false, Task.mk 2 "b" true].map Task.id).Nodup) ∧
    toggleTask 2 [Task.mk 1 "a" false, Task.mk 2 "b" true] =
      [Task.mk 1 "a" false] ++ Task.mk 2 "b" false :: [] :=
  ⟨by decide,
   (toggleTask_correct 2 [Task.mk 1 "a" false, Task.mk 2 "b" true]).2.2
     [Task.mk 1 "a" false] (Task.mk 2 "b" true) [] (by decide) rfl rfl⟩

/-- C4: deleting an id present in a duplicate-free list removes exactly the
matching entry and keeps the relative order of the rest; deleting an absent
id is a no-op. -/
theorem deleteTask_correct (id : Nat) (l : List Task) :
    ((∀ u ∈ l, u.id ≠ id) → deleteTask id l = l) ∧
    (∀ l₁ t l₂, (l.map Task.id).Nodup → l = l₁ ++ t :: l₂ → t.id = id →
      deleteTask id l = l₁ ++ l₂) := by
  refine ⟨deleteTask_of_forall_ne id l, ?_⟩
  intro l₁ t l₂ hnd hl ht
  subst hl
  obtain ⟨h₁, h₂⟩ := ids_split hnd
  unfold deleteTask
  rw [List.filter_append, List.filter_cons]
  have hta : (t.id != id) = false := by simp [ht]
  simp only [hta, Bool.false_eq_true, if_false]
  congr 1
  · exact deleteTask_of_forall_ne id l₁ (fun u hu hne => h₁ u hu (hne.trans ht.symm))
  · exact deleteTask_of_forall_ne id l₂ (fun u hu hne => h₂ u hu (hne.trans ht.symm))

/-- Witness for C4 at a concrete two-element list with distinct ids. -/
theorem deleteTask_correct_witness :
    (([Task.mk 1 "a" false, Task.mk 2 "b" true].map Task.id).Nodup) ∧
    deleteTask 1 [Task.mk 1 "a" false, Task.mk 2 "b" true] =
      [] ++ [Task.mk 2 "b" true] :=
  ⟨by decide,
   (deleteTask_correct 1 [Task.mk 1 "a" false, Task.mk 2 "b" true]).2
     [] (Task.mk 1 "a" false) [Task.mk 2 "b" true] (by decide) rfl rfl⟩

/-- C5: committing an edit whose trimmed buffer is empty leaves every task
text unchanged; a non-empty trimmed buffer replaces exactly the edited
task's text with the trimmed value. -/
theorem saveEditing_correct (s : DayState) (id : Nat)
    (h : s.editingId = Option.some id) :
    (trim s.editingValue = "" → (saveEditing s).tasks = s.tasks) ∧
    (trim s.editingValue ≠ "" →
      ∀ l₁ t l₂, (s.tasks.map Task.id).Nodup → s.tasks = l₁ ++ t :: l₂ →
        t.id = id →
        (saveEditing s).tasks = l₁ ++ { t with text := trim s.editingValue } :: l₂) := by
  constructor
  · intro hv
    simp only [saveEditing, h, hv, if_true]
    exact map_keep_text id s.tasks
  · intro hv l₁ t l₂ hnd hl ht
    simp only [saveEditing, h, if_neg hv]
    rw [hl] at hnd ⊢
    obtain ⟨h₁, h₂⟩ := ids_split hnd
    rw [List.map_append, List.map_cons]
    congr 1
    · exact map_if_id_eq_self id _ l₁ (fun u hu hne => h₁ u hu (hne.trans ht.symm))
    · congr 1
      · rw [if_pos ht]
      · exact map_if_id_eq_self id _ l₂ (fun u hu hne => h₂ u hu (hne.trans ht.symm))

/-- Witness for C5: renaming task 1 with buffer text that trims to a
non-empty word replaces exactly its text. -/
theorem saveEditing_correct_witness :
    (trim "  new " ≠ "") ∧
    (saveEditing (DayState.mk [Task.mk 1 "old" false, Task.mk 2 "b" true]
        (Option.some 1) "  new ")).tasks =
      [] ++ Task.mk 1 (trim "  new ") false :: [Task.mk 2 "b" true] :=
  ⟨by decide,
   (saveEditing_correct
       (DayState.mk [Task.mk 1 "old" false, Task.mk 2 "b" true]
         (Option.some 1) "  new ") 1 rfl).2 (by decide)
     [] (Task.mk 1 "old" false) [Task.mk 2 "b" true] (by decide) rfl rfl⟩

/-- C7: the month grid is the leading blanks given by the Monday-first weekday
index of the first of the month, then the days 1..daysInMonth in order, then
trailing blanks padding the total to a multiple of 7; a month whose first day
is a Sunday gets exactly 6 leading blanks. -/
theorem monthCells_correct (y m : Nat) (_hy : 1 ≤ y) (_hm : m < 12) :
    monthCells y m =
      List.replicate (startDay y m) Option.none
        ++ (List.range (daysInMonth y m)).map (fun d => Option.some (d + 1))
        ++ List.replicate ((7 - (startDay y m + daysInMonth y m) % 7) % 7)
            Option.none ∧
    (monthCells y m).length % 7 = 0 ∧
    (firstGetDay y m = 0 → startDay y m = 6) := by
  refine ⟨?_, ?_, ?_⟩
  · simp [monthCells, List.append_assoc]
  · have hlen : (monthCells y m).length =
        (startDay y m + daysInMonth y m)
          + (7 - (startDay y m + daysInMonth y m) % 7) % 7 := by
      simp [monthCells]
      omega
    rw [hlen]
    omega
  · intro h
    simp [startDay, h]

/-- Witness for C7 at September 2024, whose first day was a Sunday. -/
theorem monthCells_correct_witness :
    (1 ≤ 2024 ∧ 8 < 12 ∧ firstGetDay 2024 8 = 0) ∧
    startDay 2024 8 = 6 ∧ (monthCells 2024 8).length % 7 = 0 :=
  ⟨⟨by decide, by decide, by decide⟩,
   (monthCells_correct 2024 8 (by decide) (by decide)).2.2 (by decide),
   (monthCells_correct 2024 8 (by decide) (by decide)).2.1⟩

/-- C8 counterexample: two submissions with the same clock reading (two calls
inside the same millisecond, so `Date.now()` returns the same value) produce
two tasks sharing an id, so add does not always assign a fresh unique id. -/
theorem handleNewTask_duplicate_ids :
    ¬ (((handleNewTask 5 "b" (handleNewTask 5 "a" [])).map Task.id).Nodup) := by
  decide

/-- C8 amended: on a duplicate-free list, add preserves id uniqueness whenever
its clock reading exceeds every existing id (a strictly monotonic clock), and
toggle, delete, and rename always preserve id uniqueness. -/
theorem unique_ids_preserved (l : List Task) (id now : Nat) (text : String)
    (s : DayState) (hl : (l.map Task.id).Nodup)
    (hs : (s.tasks.map Task.id).Nodup) :
    ((∀ t ∈ l, t.id < now) → ((handleNewTask now text l).map Task.id).Nodup) ∧
    ((toggleTask id l).map Task.id).Nodup ∧
    ((deleteTask id l).map Task.id).Nodup ∧
    (((saveEditing s).tasks).map Task.id).Nodup := by
  refine ⟨?_, ?_, ?_, ?_⟩
  · intro hfresh
    by_cases hv : trim text = ""
    · simpa [handleNewTask, hv] using hl
    · simp only [handleNewTask, if_neg hv, List.map_append, List.map_cons,
        List.map_nil, List.nodup_append]
      refine ⟨hl, List.nodup_singleton _, ?_⟩
      intro a ha hb
      rw [List.mem_singleton] at hb
      subst hb
      obtain ⟨t, ht, hid⟩ := List.mem_map.mp ha
      exact absurd hid (Nat.ne_of_lt (hfresh t ht))
  · have h1 : (toggleTask id l).map Task.id = l.map Task.id :=
      map_ids_if id (fun t => { t with completed := !t.completed })
        (fun t => rfl) l
    exact h1 ▸ hl
  · have hsub : List.Sublist (deleteTask id l) l := List.filter_sublist l
    exact List.Nodup.sublist (hsub.map Task.id) hl
  · cases heid : s.editingId with
    | none => simpa [saveEditing, heid] using hs
    | some eid =>
        have h1 := map_ids_if eid
          (fun t => { t with
            text := if trim s.editingValue = "" then t.text
                    else trim s.editingValue })
          (fun t => rfl) s.tasks
        simp only [saveEditing, heid]
        rw [h1]
        exact hs

/-- Witness for C8 amended: one task with id 1, clock reading 2. -/
theorem unique_ids_preserved_witness :
    (([Task.mk 1 "a" false].map Task.id).Nodup) ∧
    ((handleNewTask 2 "b" [Task.mk 1 "a" false]).map Task.id).Nodup :=
  ⟨by decide,
   (unique_ids_preserved [Task.mk 1 "a" false] 1 2 "b"
       (DayState.mk [Task.mk 1 "a" false] (Option.some 1) "x")
       (by decide) (by decide)).1 (by decide)⟩

/-- C9 counterexample: the Escape handler only clears the buffer; at a
concrete editing state the editing id is still set afterwards, so Escape does
not by itself end edit mode. -/
theorem escapeEdit_keeps_editingId :
    (escapeEdit (DayState.mk [Task.mk 1 "a" false] (Option.some 1)
        "draft")).editingId ≠ Option.none := by
  decide

/-- C9 amended: Escape clears the editing buffer to the empty string and
leaves the editing id and every task untouched; edit mode only ends at the
subsequent blur or Enter commit, which (because the buffer is empty) resets
the editing id to none and leaves every task text unchanged. -/
theorem escapeEdit_correct (s : DayState) :
    (escapeEdit s).editingValue = "" ∧
    (escapeEdit s).editingId = s.editingId ∧
    (escapeEdit s).tasks = s.tasks ∧
    (saveEditing (escapeEdit s)).tasks = s.tasks ∧
    (saveEditing (escapeEdit s)).editingId = Option.none := by
  refine ⟨rfl, rfl, rfl, ?_, ?_⟩
  · cases heid : s.editingId with
    | none => simp [saveEditing, escapeEdit, heid]
    | some eid =>
        simp only [saveEditing, escapeEdit, heid]
        exact map_keep_text eid s.tasks
  · cases heid : s.editingId with
    | none => simp [saveEditing, escapeEdit, heid]
    | some eid => simp [saveEditing, escapeEdit, heid]

/-- Witness for C10 at a concrete singleton list. -/
theorem toggleTask_involution_witness :
    (∃ t ∈ [Task.mk 1 "a" false], t.id = 1) ∧
    toggleTask 1 (toggleTask 1 [Task.mk 1 "a" false]) = [Task.mk 1 "a" false] :=
  ⟨by decide, toggleTask_involution 1 [Task.mk 1 "a" false] (by decide)⟩

end Tasklist
